import Mathlib

/-!
# Verification of the ZTP data-model core (src/app.py)

A shallow embedding of the semantic core of the ZTP web application:
the JSON data model, the validator (`validate`), the CSV flattener
(`get_csv`), the CSV unflattener (`POST /csv`), and the document-store
behaviour of the `/data`, `/csv` endpoints.

Python strings are modelled as `List Char` (`PyStr`); Python
`OrderedDict`s are modelled as association lists together with the
dictionary assignment operation `odSet` (update-in-place when the key
exists, append otherwise), which is exactly the semantics the source
relies on for key order.
-/

/-- Python strings, modelled as character lists. -/
abbrev PyStr := List Char

/-- The rendering of Python `True` / `str(True)`. -/
def trueS : PyStr := "True".toList

/-- The rendering of Python `str(False)`. -/
def falseS : PyStr := "False".toList

def stackS : PyStr := "stack".toList
def substS : PyStr := "subst".toList

/-- ASCII whitespace, as recognised by `str.isspace` (the Unicode
whitespace classes Python additionally accepts are elided; no claim
depends on them). -/
def isPySpace (c : Char) : Bool :=
  c = ' ' || c = '\t' || c = '\n' || c = '\r' || c = '\x0b' || c = '\x0c'

/-- Python's `not k or k.isspace()`: the key is empty, or non-empty and
all whitespace; equivalently every character is whitespace. -/
def blankKey (k : PyStr) : Bool := k.all isPySpace

/-- JSON values as produced by `json.load(..., object_pairs_hook=OrderedDict)`:
objects keep their key order, so they are association lists.  Floats are
elided (`num` carries integers); no claim depends on them. -/
inductive JVal where
  | str  : PyStr → JVal
  | bool : Bool → JVal
  | num  : Int → JVal
  | arr  : List JVal → JVal
  | obj  : List (PyStr × JVal) → JVal
deriving Repr

instance : Inhabited JVal := ⟨.str []⟩

/-- An Entry of the collection: one ordered JSON object. -/
abbrev Entry := List (PyStr × JVal)

/-- Dictionary lookup `d[k]` / `k in d` on an ordered dict. -/
def lookupK {α : Type} (k : PyStr) : List (PyStr × α) → Option α
  | [] => none
  | kv :: rest => if kv.1 = k then some kv.2 else lookupK k rest

/-- Dictionary assignment `d[k] = v` on an ordered dict: update in place
when the key is present (keeping its position), append otherwise. -/
def odSet {α : Type} (d : List (PyStr × α)) (k : PyStr) (v : α) : List (PyStr × α) :=
  if (lookupK k d).isSome then
    d.map (fun p => if p.1 = k then (k, v) else p)
  else
    d ++ [(k, v)]

/-! ## The validator (`validate`, app.py lines 259-287) -/

/-- `'stack' in my and not isinstance(my['stack'], OrderedDict)` —
`true` when the check passes. -/
def keyObjOk (key : PyStr) (kvs : Entry) : Bool :=
  match lookupK key kvs with
  | some (.obj _) => true
  | some _ => false
  | none => true

/-- `0 in [len(v) for v in my.values() if isinstance(v, OrderedDict)]`. -/
def hasEmptyObjVal (kvs : Entry) : Bool :=
  kvs.any fun kv =>
    match kv.2 with
    | .obj m => m.isEmpty
    | _ => false

/-- `[k for k in my if not k or k.isspace()]` is non-empty. -/
def hasBlankTopKey (kvs : Entry) : Bool :=
  kvs.any fun kv => blankKey kv.1

/-- `'stack' in my`. -/
def hasStack (kvs : Entry) : Bool := (lookupK stackS kvs).isSome

/-- The per-entry checks of `validate`'s loop body, in source order,
threading the `num_defaults` accumulator. -/
def validateLoop : List JVal → Nat → Except String Unit
  | [], n =>
      if n > 1 then .error "Maximum of one object without stack key is allowed"
      else .ok ()
  | my :: rest, n =>
      match my with
      | .obj kvs =>
          if !keyObjOk stackS kvs then .error "Stack must be JSON object"
          else if !keyObjOk substS kvs then .error "Subst must be JSON object"
          else if hasEmptyObjVal kvs then .error "Empty JSON object not allowed"
          else if hasBlankTopKey kvs then .error "Empty JSON keys not allowed"
          else validateLoop rest (if hasStack kvs then n else n + 1)
      | _ => .error "Expecting JSON array of objects"

/-- `validate(data)` (app.py lines 259-287). -/
def validate (data : JVal) : Except String Unit :=
  match data with
  | .arr entries => validateLoop entries 0
  | _ => .error "Expecting JSON array of objects"

/-- The JSON document corresponding to a list of entries. -/
def toJson (c : List Entry) : JVal := .arr (c.map .obj)

/-! ## The flattener (`get_csv`, app.py lines 144-167) -/

/-- The flat key/value pairs emitted for one entry, in emission order:
a nested object contributes one `"top/nested"` pair per nested key,
anything else contributes the pair itself. -/
def flatPairs (e : Entry) : List (PyStr × JVal) :=
  e.flatMap fun kv =>
    match kv.2 with
    | .obj kvs => kvs.map fun kk => (kv.1 ++ '/' :: kk.1, kk.2)
    | _ => [(kv.1, kv.2)]

/-- The flat keys a single entry pair contributes. -/
def chunkKeys (kv : PyStr × JVal) : List PyStr :=
  match kv.2 with
  | .obj m => m.map fun kk => kv.1 ++ '/' :: kk.1
  | _ => [kv.1]

/-- The flat `OrderedDict` built by the source's loop: the emitted pairs
inserted in order by dictionary assignment. -/
def flattenEntry (e : Entry) : List (PyStr × JVal) :=
  (flatPairs e).foldl (fun d kv => odSet d kv.1 kv.2) []

/-- `row.keys()` of the flattened entry. -/
def flatKeys (e : Entry) : List PyStr := (flattenEntry e).map Prod.fst

/-- Helper for `dedupFirst`: keys already seen are skipped. -/
def dedupFirstAux (seen : List PyStr) : List PyStr → List PyStr
  | [] => []
  | k :: ks =>
      if seen.contains k then dedupFirstAux seen ks
      else k :: dedupFirstAux (k :: seen) ks

/-- `OrderedDict.fromkeys(columns)`: duplicates removed, first
occurrence kept. -/
def dedupFirst (l : List PyStr) : List PyStr := dedupFirstAux [] l

/-- The CSV column list: all flat keys in first-seen order. -/
def columnsOf (c : List Entry) : List PyStr :=
  dedupFirst ((c.map flatKeys).flatten)

/-- `str(value)` as applied by the csv writer to a cell value.  The
exact Python repr text of compound values (lists, dicts) is irrelevant
to every claim and abbreviated here; nested objects never reach this
function because `get_csv` expands them first. -/
def pyStr : JVal → PyStr
  | .str s => s
  | .bool true => trueS
  | .bool false => falseS
  | .num n => (toString n).toList
  | .arr _ => "<list>".toList
  | .obj _ => "<dict>".toList

/-- A DictWriter cell: `rowdict.get(key, '')` then `str`;
a missing key yields the empty field (`restval=''`). -/
def renderCell : Option JVal → PyStr
  | none => []
  | some v => pyStr v

/-- The data row the DictWriter writes for one flattened entry. -/
def rowFor (cols : List PyStr) (flat : List (PyStr × JVal)) : List PyStr :=
  cols.map fun k => renderCell (lookupK k flat)

/-- The CSV export of a collection, at cell level: the header row and
the data rows (the `;`-delimited byte serialisation with standard quoting is
a faithful injective encoding of these and is elided). -/
def exportCsv (c : List Entry) : List PyStr × List (List PyStr) :=
  (columnsOf c, c.map fun e => rowFor (columnsOf c) (flattenEntry e))

/-! ## The unflattener (`POST /csv`, app.py lines 186-202) -/

/-- Python's `k.split('/')`: split on every slash; always non-empty. -/
def splitSlash : PyStr → List PyStr
  | [] => [[]]
  | c :: rest =>
      match splitSlash rest with
      | [] => [[]]
      | s :: ss => if c = '/' then [] :: s :: ss else (c :: s) :: ss

/-- The `else` branch of the reconstruction loop: top-level scalar keys.
`"True"` becomes boolean true, a non-blank cell becomes a string, and a
blank cell is dropped. -/
def topStep (cubic : Entry) (k v : PyStr) : Entry :=
  if v = trueS then odSet cubic k (.bool true)
  else if v ≠ [] then odSet cubic k (.str v)
  else cubic

/-- The nested branch: merge `f: v` into the object under `g`, creating
it if absent.  `cubic[g].update(...)` on a non-object raises
AttributeError, which the source does not catch. -/
def setNested (cubic : Entry) (g f v : PyStr) : Except String Entry :=
  match lookupK g cubic with
  | some (.obj inner) => .ok (odSet cubic g (.obj (odSet inner f (.str v))))
  | some _ => .error "AttributeError"
  | none => .ok (odSet cubic g (.obj [(f, .str v)]))

/-- One iteration of the reconstruction loop over the flat dict:
`if dct[k] and len(kk) == 2` takes the nested branch. -/
def cubicStep (cubic : Entry) (k v : PyStr) : Except String Entry :=
  match splitSlash k with
  | [g, f] => if v ≠ [] then setNested cubic g f v else .ok (topStep cubic k v)
  | _ => .ok (topStep cubic k v)

/-- `OrderedDict(zip(headers, row))`. -/
def dctOf (headers row : List PyStr) : List (PyStr × PyStr) :=
  (headers.zip row).foldl (fun d kv => odSet d kv.1 kv.2) []

/-- The reconstruction loop over the pairs of the flat dict, starting
from a given partial entry. -/
def buildPairs (acc : Entry) (pairs : List (PyStr × PyStr)) : Except String Entry :=
  pairs.foldlM (fun cubic kv => cubicStep cubic kv.1 kv.2) acc

/-- Reconstruction of one entry from one CSV data row. -/
def buildRow (headers row : List PyStr) : Except String Entry :=
  buildPairs [] (dctOf headers row)

/-- The whole import transform: every data row reconstructed in order;
an uncaught AttributeError aborts the request. -/
def unflattenRows (headers : List PyStr) (rows : List (List PyStr)) :
    Except String (List Entry) :=
  rows.mapM (buildRow headers)

/-! ## Document store and endpoint boundary behaviour -/

/-- The state of `data.json`: absent, present but unreadable/unparsable
(carrying the exception message), or present and parsed. -/
abbrev Store := Option (Except String JVal)

/-- What a request handler produces: a successful body, an error caught
and converted by the `error()` helper (HTTP 500 with the message as JSON),
or an exception that escaped the handler uncaught. -/
inductive Outcome (α : Type) where
  | ok (body : α)
  | handled (msg : String)
  | uncaught (msg : String)
deriving Repr

/-- `GET /data` (app.py lines 99-120): load, validate and send; a missing
file yields `[{}]`; `ValueError`/`IOError` are caught and converted. -/
def getData (st : Store) : Outcome JVal :=
  match st with
  | none => .ok (JVal.arr [JVal.obj []])
  | some (.error e) => .handled e
  | some (.ok data) =>
      match validate data with
      | .error msg => .handled msg
      | .ok () => .ok data

/-- Entries of a validated document (`validate` guarantees every element
is an object; the fallbacks are dead code on that path). -/
def entriesOf : JVal → List Entry
  | .arr es => es.map fun e => match e with | .obj kvs => kvs | _ => []
  | _ => []

/-- `GET /csv` (app.py lines 137-176): open, parse, validate, flatten.
Unlike every other handler, this one has no `try`/`except`: the
`IOError` of a missing file, the `ValueError` of malformed JSON and the
`ValueError` raised by `validate` all escape the handler uncaught. -/
def getCsv (st : Store) : Outcome (List PyStr × List (List PyStr)) :=
  match st with
  | none => .uncaught "IOError"
  | some (.error e) => .uncaught e
  | some (.ok data) =>
      match validate data with
      | .error msg => .uncaught msg
      | .ok () => .ok (exportCsv (entriesOf data))

/-- `POST /data` (app.py lines 122-135): only acts when the Content-Type
is exactly `application/json`; parse and validation failures are caught
with nothing written; success overwrites the document. -/
def postData (ct : String) (body : Except String JVal) (st : Store) :
    Store × Outcome Unit :=
  if ct = "application/json" then
    match body with
    | .error e => (st, .handled e)
    | .ok data =>
        match validate data with
        | .error m => (st, .handled m)
        | .ok () => (some (.ok data), .ok ())
  else (st, .ok ())

/-- `POST /csv` (app.py lines 178-210): unflatten the uploaded rows
(outside the `try` block, so an AttributeError escapes uncaught), then
validate and write inside it. -/
def postCsv (headers : List PyStr) (rows : List (List PyStr)) (st : Store) :
    Store × Outcome Unit :=
  match unflattenRows headers rows with
  | .error e => (st, .uncaught e)
  | .ok entries =>
      match validate (toJson entries) with
      | .error m => (st, .handled m)
      | .ok () => (some (.ok (toJson entries)), .ok ())

/-! ## Spec-side predicates and spec-worded reference functions -/

/-- Is the value a JSON object? -/
def isObjV : JVal → Bool
  | .obj _ => true
  | _ => false

/-- Rule 1 of the spec (ExpectingArrayOfObjects) fails: the document is
not an array, or some element is not an object. -/
def rule1Fails (data : JVal) : Bool :=
  match data with
  | .arr es => es.any fun e => !isObjV e
  | _ => true

/-- A blank key inside some nested object of the entry. -/
def hasBlankNestedKey (kvs : Entry) : Bool :=
  kvs.any fun kv =>
    match kv.2 with
    | .obj m => m.any fun kk => blankKey kk.1
    | _ => false

/-- The claim C2 reading: a blank key anywhere within the entry,
top-level or nested. -/
def hasBlankKeyAnywhere (kvs : Entry) : Bool :=
  hasBlankTopKey kvs || hasBlankNestedKey kvs

/-- The checks `validate` runs on one entry before its blank-key check:
entry is an object, `stack`/`subst` are objects if present, no empty
object value. -/
def entryEarlierOk (my : JVal) : Bool :=
  match my with
  | .obj kvs => keyObjOk stackS kvs && keyObjOk substS kvs && !hasEmptyObjVal kvs
  | _ => false

/-- Blank-key check lifted to a JSON value (false on non-objects). -/
def hasBlankTopKeyJ (my : JVal) : Bool :=
  match my with
  | .obj kvs => hasBlankTopKey kvs
  | _ => false

/-- The first error `validate` reports for one entry, if any, written as
a standalone per-entry scan (the amended C5 precedence). -/
def entryError (my : JVal) : Option String :=
  match my with
  | .obj kvs =>
      if !keyObjOk stackS kvs then some "Stack must be JSON object"
      else if !keyObjOk substS kvs then some "Subst must be JSON object"
      else if hasEmptyObjVal kvs then some "Empty JSON object not allowed"
      else if hasBlankTopKey kvs then some "Empty JSON keys not allowed"
      else none
  | _ => some "Expecting JSON array of objects"

/-- Amended C5, following the spec words: entries are scanned in order
and the first failing entry determines the error; the default-entry
count is checked only after every entry passed. -/
def validateSpec (data : JVal) : Except String Unit :=
  match data with
  | .arr es =>
      match es.findSome? entryError with
      | some m => .error m
      | none =>
          if (es.filter fun e => !(match e with | .obj kvs => hasStack kvs | _ => false)).length > 1
          then .error "Maximum of one object without stack key is allowed"
          else .ok ()
  | _ => .error "Expecting JSON array of objects"

/-- Claim C4's split: on the FIRST slash only. -/
def splitFirst (k : PyStr) : Option (PyStr × PyStr) :=
  match k with
  | [] => none
  | c :: rest =>
      if c = '/' then some ([], rest)
      else match splitFirst rest with
           | some (g, f) => some (c :: g, f)
           | none => none

/-- Claim C4's reconstruction step, following the spec words: split on
the first slash; iff that yields two NON-EMPTY parts and the value is
non-blank, merge into the nested object under the group; otherwise treat
as a top-level scalar key. -/
def claimStep (cubic : Entry) (k v : PyStr) : Except String Entry :=
  match splitFirst k with
  | some (g, f) =>
      if g ≠ [] ∧ f ≠ [] ∧ v ≠ [] then setNested cubic g f v
      else .ok (topStep cubic k v)
  | none => .ok (topStep cubic k v)

/-- Amended C4 step, following the amended words: split on EVERY slash;
iff that yields exactly two parts (either possibly empty) and the value
is non-blank, merge; otherwise top-level scalar treatment. -/
def amendedStep (cubic : Entry) (k v : PyStr) : Except String Entry :=
  if (splitSlash k).length = 2 ∧ v ≠ [] then
    match splitSlash k with
    | [g, f] => setNested cubic g f v
    | _ => .ok (topStep cubic k v)
  else .ok (topStep cubic k v)

/-! ## Well-formedness for the round-trip theorem -/

/-- No slash in the string. -/
def noSlash (s : PyStr) : Bool := !s.contains '/'

/-- Key list without duplicates, computably. -/
def nodupKeysB : List PyStr → Bool
  | [] => true
  | k :: ks => !ks.contains k && nodupKeysB ks

/-- Is the value a non-blank string? -/
def isNonBlankStr : JVal → Bool
  | .str s => !s.isEmpty
  | _ => false

/-- A value that survives the CSV round trip unchanged: boolean true, a
non-blank string other than `"True"`, or a non-empty nested object of
slash-free keys and non-blank string values. -/
def goodVal : JVal → Bool
  | .bool b => b
  | .str s => !s.isEmpty && s != trueS
  | .obj m =>
      !m.isEmpty && nodupKeysB (m.map Prod.fst) &&
        m.all fun kk => noSlash kk.1 && isNonBlankStr kk.2
  | _ => false

/-- An entry that survives the CSV round trip unchanged: distinct
slash-free keys and `goodVal` values. -/
def goodEntry (e : Entry) : Bool :=
  nodupKeysB (e.map Prod.fst) && e.all fun kv => noSlash kv.1 && goodVal kv.2

/-- Computable subsequence check (order-preserving containment). -/
def isSubseq : List PyStr → List PyStr → Bool
  | [], _ => true
  | _ :: _, [] => false
  | a :: as, b :: bs => if a = b then isSubseq as bs else isSubseq (a :: as) bs

/-- The cell written for column `k` of entry `e`, recovered from the
header row and the entry's data row by positional correspondence. -/
def cellAt (cols : List PyStr) (e : Entry) (k : PyStr) : Option PyStr :=
  lookupK k (cols.zip (rowFor cols (flattenEntry e)))

/-! ## Basic lemmas about the ordered-dict operations -/

theorem lookupK_eq_none {α : Type} {d : List (PyStr × α)} {k : PyStr} :
    lookupK k d = none ↔ k ∉ d.map Prod.fst := by
  induction d with
  | nil => simp [lookupK]
  | cons kv rest ih =>
      by_cases h : kv.1 = k
      · simp only [lookupK, if_pos h, List.map_cons, List.mem_cons]
        constructor
        · intro hc; exact absurd hc (by simp)
        · intro hc; exact absurd (Or.inl h.symm) hc
      · simp only [lookupK, if_neg h, List.map_cons, List.mem_cons, ih]
        constructor
        · intro hc hk; rcases hk with hk | hk
          · exact h hk.symm
          · exact hc hk
        · intro hc hk; exact hc (Or.inr hk)

theorem odSet_of_not_mem {α : Type} {d : List (PyStr × α)} {k : PyStr} (v : α)
    (h : k ∉ d.map Prod.fst) : odSet d k v = d ++ [(k, v)] := by
  have hl : lookupK k d = none := lookupK_eq_none.mpr h
  simp [odSet, hl]

theorem cubicStep_blank (cubic : Entry) (k : PyStr) :
    cubicStep cubic k [] = .ok cubic := by
  have ht : topStep cubic k [] = cubic := by simp [topStep, trueS]
  unfold cubicStep
  cases hs : splitSlash k with
  | nil => simp [ht]
  | cons a l =>
      cases l with
      | nil => simp [ht]
      | cons b l2 =>
          cases l2 with
          | nil => simp [ht]
          | cons c l3 => simp [ht]

/-! ## C8: missing document loads as `[{}]` -/

/-- **C8**: when no backing document exists, `GET /data` returns the
collection `[{}]` (one empty entry) and does not fail. -/
theorem getData_missing_returns_singleton_empty :
    getData none = .ok (JVal.arr [JVal.obj []]) := rfl

/-! ## C10: write with wrong Content-Type is a silent no-op -/

/-- **C10**: a `POST /data` whose Content-Type is not exactly
`application/json` performs no parsing, validation or write: the store
is unchanged and the request ends as an empty success, whatever the
body. -/
theorem postData_wrong_content_type_noop (ct : String) (body : Except String JVal)
    (st : Store) (h : ct ≠ "application/json") :
    postData ct body st = (st, .ok ()) := by
  simp [postData, h]

theorem postData_wrong_content_type_noop_witness :
    ("text/plain" : String) ≠ "application/json" ∧
      postData "text/plain" (.ok (JVal.str ['x'])) none = (none, .ok ()) :=
  ⟨by decide, postData_wrong_content_type_noop _ _ _ (by decide)⟩

/-! ## C7: `GET /csv` does not catch load/parse/validation failures -/

/-- **C7** (code bug): the claim says CSV-export failures are caught at
the boundary and converted to a taxonomy error message; in the code
`get_csv` alone has no `try`/`except`, so the missing-file `IOError`,
the malformed-JSON `ValueError` and the `ValueError` from `validate`
all escape the handler uncaught, and no input ever produces a handled
error message. -/
theorem getCsv_failure_escapes_uncaught :
    getCsv none = .uncaught "IOError" ∧
      ∀ (st : Store) (m : String), getCsv st ≠ .handled m := by
  refine ⟨rfl, ?_⟩
  intro st m h
  match st with
  | none => simp [getCsv] at h
  | some (.error e) => simp [getCsv] at h
  | some (.ok d) =>
      cases hv : validate d with
      | error msg => simp [getCsv, hv] at h
      | ok u => cases u; simp [getCsv, hv] at h

/-! ## C9: the validator accepts values outside the documented model -/

/-- **C9**: for any non-blank key other than `stack` and `subst`, an
entry value may be a number, an array, or an arbitrarily nested
non-empty object (even one whose inner objects are empty) and
validation still succeeds. -/
theorem validate_accepts_offmodel_values (k : PyStr) (v : JVal)
    (hk : blankKey k = false) (hs : k ≠ stackS) (hb : k ≠ substS)
    (hv : (∃ n, v = JVal.num n) ∨ (∃ xs, v = JVal.arr xs) ∨
          (∃ kvs, v = JVal.obj kvs ∧ kvs ≠ [])) :
    validate (JVal.arr [JVal.obj [(k, v)]]) = .ok () := by
  have hstack : lookupK stackS ([(k, v)] : Entry) = none := by
    simp [lookupK, hs]
  have hsubst : lookupK substS ([(k, v)] : Entry) = none := by
    simp [lookupK, hb]
  have hobj : hasEmptyObjVal [(k, v)] = false := by
    rcases hv with ⟨n, rfl⟩ | ⟨xs, rfl⟩ | ⟨kvs, rfl, hne⟩
    · simp [hasEmptyObjVal]
    · simp [hasEmptyObjVal]
    · cases kvs with
      | nil => exact absurd rfl hne
      | cons kk rest => simp [hasEmptyObjVal]
  simp [validate, validateLoop, keyObjOk, hstack, hsubst, hobj,
    hasBlankTopKey, hk, hasStack]

theorem validate_accepts_offmodel_values_witness :
    blankKey "a".toList = false ∧ "a".toList ≠ stackS ∧ "a".toList ≠ substS ∧
      validate (JVal.arr [JVal.obj
        [("a".toList, JVal.obj [("b".toList, JVal.obj [])])]]) = .ok () :=
  ⟨rfl, by decide, by decide,
    validate_accepts_offmodel_values _ _ rfl (by decide) (by decide)
      (Or.inr (Or.inr ⟨_, rfl, by exact List.cons_ne_nil _ _⟩))⟩

/-! ## C6: a failed write or import leaves the store unchanged -/

/-- **C6**: save is all-or-nothing: when a `POST /data` payload or a
`POST /csv` import fails validation, the failure is reported with
nothing written, the stored document is unchanged and a subsequent load
returns the prior collection. -/
theorem failed_save_leaves_store_unchanged (st : Store) (d : JVal) (m : String)
    (hd : validate d = .error m)
    (headers : List PyStr) (rows : List (List PyStr)) (es : List Entry) (m2 : String)
    (hu : unflattenRows headers rows = .ok es)
    (hv : validate (toJson es) = .error m2) :
    (postData "application/json" (.ok d) st).1 = st ∧
    (postCsv headers rows st).1 = st ∧
    getData (postData "application/json" (.ok d) st).1 = getData st ∧
    getData (postCsv headers rows st).1 = getData st := by
  have h1 : postData "application/json" (.ok d) st = (st, .handled m) := by
    simp [postData, hd]
  have h2 : postCsv headers rows st = (st, .handled m2) := by
    simp [postCsv, hu, hv]
  rw [h1, h2]
  exact ⟨rfl, rfl, rfl, rfl⟩

theorem failed_save_leaves_store_unchanged_witness :
    validate (JVal.str ['x']) = .error "Expecting JSON array of objects" ∧
    unflattenRows [[]] [[['x']]] = .ok [[([], JVal.str ['x'])]] ∧
    validate (toJson [[([], JVal.str ['x'])]]) = .error "Empty JSON keys not allowed" ∧
    ((postData "application/json" (.ok (JVal.str ['x'])) (some (.ok (JVal.arr [])))).1
        = some (.ok (JVal.arr [])) ∧
     (postCsv [[]] [[['x']]] (some (.ok (JVal.arr [])))).1 = some (.ok (JVal.arr [])) ∧
     getData (postData "application/json" (.ok (JVal.str ['x']))
        (some (.ok (JVal.arr [])))).1 = getData (some (.ok (JVal.arr []))) ∧
     getData (postCsv [[]] [[['x']]] (some (.ok (JVal.arr [])))).1
        = getData (some (.ok (JVal.arr [])))) :=
  ⟨rfl, rfl, rfl,
    failed_save_leaves_store_unchanged (some (.ok (JVal.arr []))) (JVal.str ['x'])
      "Expecting JSON array of objects" rfl [[]] [[['x']]] [[([], JVal.str ['x'])]]
      "Empty JSON keys not allowed" rfl rfl⟩

/-! ## C3: rendering of booleans and absent values in CSV cells -/

/-- A column's cell as a function of the flattened entry. -/
theorem lookupK_zip_map {β : Type} (cols : List PyStr) (f : PyStr → β) (k : PyStr)
    (hk : k ∈ cols) : lookupK k (cols.zip (cols.map f)) = some (f k) := by
  induction cols with
  | nil => cases hk
  | cons c rest ih =>
      by_cases h : c = k
      · subst h; simp [lookupK]
      · rcases List.mem_cons.mp hk with h1 | h1
        · exact absurd h1.symm h
        · simpa [lookupK, h] using ih h1

/-- **C3** counterexample: in the CSV export of `[{"a": false}]` the cell
in column `a` is the five-character string `False`, not the empty field
the claim prescribes for boolean false. -/
theorem csv_false_cell_not_empty :
    cellAt (exportCsv [[("a".toList, JVal.bool false)]]).1
        [("a".toList, JVal.bool false)] "a".toList = some falseS ∧
    falseS ≠ ([] : PyStr) :=
  ⟨rfl, by decide⟩

/-- **C3** amended: in the flattened CSV output, for every entry and
every column, boolean true renders as `True`, boolean false renders as
`False` (not empty), and an absent value renders as the empty field. -/
theorem csv_cell_rendering (c : List Entry) (e : Entry) (k : PyStr)
    (hk : k ∈ (exportCsv c).1) :
    cellAt (exportCsv c).1 e k = some (renderCell (lookupK k (flattenEntry e))) ∧
    renderCell (some (JVal.bool true)) = trueS ∧
    renderCell (some (JVal.bool false)) = falseS ∧
    renderCell none = [] := by
  refine ⟨?_, rfl, rfl, rfl⟩
  unfold cellAt rowFor
  exact lookupK_zip_map _ _ _ hk

theorem csv_cell_rendering_witness :
    ("a".toList ∈ (exportCsv [[("a".toList, JVal.bool false)]]).1) ∧
    cellAt (exportCsv [[("a".toList, JVal.bool false)]]).1
        [("a".toList, JVal.bool false)] "a".toList =
      some (renderCell (lookupK "a".toList
        (flattenEntry [("a".toList, JVal.bool false)]))) :=
  ⟨by decide, (csv_cell_rendering [[("a".toList, JVal.bool false)]]
      [("a".toList, JVal.bool false)] "a".toList (by decide)).1⟩

/-! ## C2: the blank-key check sees only top-level keys -/

/-- **C2** counterexample: `[{"a": {" ": "v"}}]` contains a
whitespace-only key inside a nested object, yet `validate` accepts the
collection. -/
theorem validate_accepts_blank_nested_key :
    hasBlankKeyAnywhere [("a".toList, JVal.obj [([' '], JVal.str ['v'])])] = true ∧
    validate (toJson [[("a".toList, JVal.obj [([' '], JVal.str ['v'])])]]) = .ok () :=
  ⟨rfl, rfl⟩

theorem validateLoop_blank_iff (entries : List JVal) (n : Nat)
    (h : ∀ my ∈ entries, entryEarlierOk my = true) :
    (validateLoop entries n = .error "Empty JSON keys not allowed" ↔
      ∃ my ∈ entries, hasBlankTopKeyJ my = true) := by
  induction entries generalizing n with
  | nil =>
      constructor
      · intro hc
        unfold validateLoop at hc
        split at hc
        · simp at hc
        · simp at hc
      · rintro ⟨my, hm, _⟩
        exact absurd hm (List.not_mem_nil _)
  | cons my rest ih =>
      have hhead := h my (List.mem_cons_self my rest)
      have htail : ∀ m ∈ rest, entryEarlierOk m = true :=
        fun m hm => h m (List.mem_cons_of_mem _ hm)
      cases my with
      | obj kvs =>
          simp only [entryEarlierOk, Bool.and_eq_true] at hhead
          obtain ⟨⟨h1, h2⟩, h3⟩ := hhead
          rw [Bool.not_eq_true'] at h3
          by_cases hb : hasBlankTopKey kvs
          · constructor
            · intro _
              exact ⟨JVal.obj kvs, List.mem_cons_self _ _, by simpa [hasBlankTopKeyJ]⟩
            · intro _
              simp [validateLoop, h1, h2, h3, hb]
          · have hstep : validateLoop (JVal.obj kvs :: rest) n =
                validateLoop rest (if hasStack kvs then n else n + 1) := by
              simp [validateLoop, h1, h2, h3, hb]
            rw [hstep, ih _ htail]
            constructor
            · rintro ⟨m, hm, hbm⟩
              exact ⟨m, List.mem_cons_of_mem _ hm, hbm⟩
            · rintro ⟨m, hm, hbm⟩
              rcases List.mem_cons.mp hm with rfl | hm2
              · simp [hasBlankTopKeyJ, hb] at hbm
              · exact ⟨m, hm2, hbm⟩
      | str s => simp [entryEarlierOk] at hhead
      | bool b => simp [entryEarlierOk] at hhead
      | num i => simp [entryEarlierOk] at hhead
      | arr xs => simp [entryEarlierOk] at hhead

/-- **C2** amended: `validate` checks emptiness/whitespace only of the
TOP-LEVEL keys of each entry: provided every entry passes the checks
that precede the key check (array-of-objects, stack/subst shape,
non-empty object values), it fails with EmptyKeyNotAllowed exactly when
some entry has a blank top-level key; blank keys inside nested objects
are never examined. -/
theorem validate_blank_key_top_level_only (entries : List JVal)
    (h : ∀ my ∈ entries, entryEarlierOk my = true) :
    (validate (JVal.arr entries) = .error "Empty JSON keys not allowed" ↔
      ∃ my ∈ entries, hasBlankTopKeyJ my = true) :=
  validateLoop_blank_iff entries 0 h

theorem validate_blank_key_top_level_only_witness :
    (∀ my ∈ [JVal.obj [([' '], JVal.str ['v'])]], entryEarlierOk my = true) ∧
    (validate (JVal.arr [JVal.obj [([' '], JVal.str ['v'])]]) =
        .error "Empty JSON keys not allowed" ↔
      ∃ my ∈ [JVal.obj [([' '], JVal.str ['v'])]], hasBlankTopKeyJ my = true) :=
  ⟨by intro my hm; rcases List.mem_singleton.mp hm with rfl; rfl,
   validate_blank_key_top_level_only _
     (by intro my hm; rcases List.mem_singleton.mp hm with rfl; rfl)⟩

/-! ## C4: the import split is on every slash, parts may be empty -/

/-- **C4** counterexample: for header key `a/b/c` with non-blank cell
`x`, splitting on the first slash gives the two non-empty parts
`a`/`b/c`, so the claim prescribes the nested merge
`{"a": {"b/c": "x"}}`; the code splits on every slash, gets three
parts, and stores the top-level scalar key `a/b/c` instead. -/
theorem import_split_not_first_slash :
    claimStep [] "a/b/c".toList ['x'] =
      .ok [("a".toList, JVal.obj [("b/c".toList, JVal.str ['x'])])] ∧
    cubicStep [] "a/b/c".toList ['x'] = .ok [("a/b/c".toList, JVal.str ['x'])] ∧
    claimStep [] "a/b/c".toList ['x'] ≠ cubicStep [] "a/b/c".toList ['x'] := by
  refine ⟨rfl, rfl, ?_⟩
  intro h
  have e1 : claimStep [] "a/b/c".toList ['x'] =
      .ok [("a".toList, JVal.obj [("b/c".toList, JVal.str ['x'])])] := rfl
  have e2 : cubicStep [] "a/b/c".toList ['x'] =
      .ok [("a/b/c".toList, JVal.str ['x'])] := rfl
  rw [e1, e2] at h
  have h2 := congrArg (fun r : Except String Entry =>
    match r with | .ok e => e.map Prod.fst | .error _ => ([] : List PyStr)) h
  exact absurd (show (["a".toList] : List PyStr) = ["a/b/c".toList] from h2)
    (by decide)

/-- **C4** amended: during CSV import every flat header key is split on
EVERY slash; if and only if this yields exactly two parts — either of
which may be empty — and the cell value is non-blank, `field: value` is
merged into the nested object under `group` (preserving first-seen key
order); otherwise the key receives the top-level scalar treatment. -/
theorem import_step_splits_every_slash (cubic : Entry) (k v : PyStr) :
    cubicStep cubic k v = amendedStep cubic k v := by
  unfold cubicStep amendedStep
  by_cases hv : v = []
  · subst hv
    cases hs : splitSlash k with
    | nil => simp
    | cons a l =>
        cases l with
        | nil => simp
        | cons b l2 =>
            cases l2 with
            | nil => simp
            | cons c l3 => simp
  · cases hs : splitSlash k with
    | nil => simp
    | cons a l =>
        cases l with
        | nil => simp
        | cons b l2 =>
            cases l2 with
            | nil => simp [hv]
            | cons c l3 => simp [List.length_cons]

/-! ## C5: validation order is per entry, not per rule -/

/-- **C5** counterexample: on `[{"": "x"}, "y"]` rule 1
(ExpectingArrayOfObjects, fired by the second element) and rule 3
(EmptyKeyNotAllowed, fired by the first) both fail; the canonical order
of the claim picks rule 1, but `validate` reports the empty-key failure
of the earlier entry. -/
theorem validate_error_not_canonical_across_entries :
    rule1Fails (JVal.arr [JVal.obj [([], JVal.str ['x'])], JVal.str ['y']]) = true ∧
    validate (JVal.arr [JVal.obj [([], JVal.str ['x'])], JVal.str ['y']]) =
      .error "Empty JSON keys not allowed" ∧
    ("Empty JSON keys not allowed" : String) ≠ "Expecting JSON array of objects" :=
  ⟨rfl, rfl, by decide⟩

theorem validateLoop_eq_spec (es : List JVal) (n : Nat) :
    validateLoop es n =
      match es.findSome? entryError with
      | some m => Except.error m
      | none =>
          if (es.filter fun e =>
                !(match e with | .obj kvs => hasStack kvs | _ => false)).length + n > 1
          then Except.error "Maximum of one object without stack key is allowed"
          else Except.ok () := by
  induction es generalizing n with
  | nil => simp [validateLoop, List.findSome?_nil]
  | cons my rest ih =>
      cases my with
      | obj kvs =>
          by_cases h1 : keyObjOk stackS kvs
          · by_cases h2 : keyObjOk substS kvs
            · by_cases h3 : hasEmptyObjVal kvs
              · simp [validateLoop, entryError, List.findSome?_cons, h1, h2, h3]
              · by_cases h4 : hasBlankTopKey kvs
                · simp [validateLoop, entryError, List.findSome?_cons, h1, h2, h3, h4]
                · have hstep : validateLoop (JVal.obj kvs :: rest) n =
                      validateLoop rest (if hasStack kvs then n else n + 1) := by
                    simp [validateLoop, h1, h2, h3, h4]
                  have hent : entryError (JVal.obj kvs) = none := by
                    simp [entryError, h1, h2, h3, h4]
                  rw [hstep]
                  simp only [List.findSome?_cons, hent]
                  by_cases h5 : hasStack kvs
                  · rw [if_pos h5, ih n]
                    have hf : List.filter (fun e =>
                          !(match e with | JVal.obj kvs => hasStack kvs | _ => false))
                          (JVal.obj kvs :: rest) =
                        List.filter (fun e =>
                          !(match e with | JVal.obj kvs => hasStack kvs | _ => false))
                          rest := by
                      simp [List.filter_cons, h5]
                    rw [hf]
                  · rw [if_neg h5, ih (n + 1)]
                    have hf : (List.filter (fun e =>
                          !(match e with | JVal.obj kvs => hasStack kvs | _ => false))
                          (JVal.obj kvs :: rest)).length =
                        (List.filter (fun e =>
                          !(match e with | JVal.obj kvs => hasStack kvs | _ => false))
                          rest).length + 1 := by
                      simp [List.filter_cons, h5]
                    cases hfs : rest.findSome? entryError with
                    | some m => simp
                    | none =>
                        simp only [hf]
                        have hn : (List.filter (fun e =>
                              !(match e with | JVal.obj kvs => hasStack kvs | _ => false))
                              rest).length + (n + 1) =
                            (List.filter (fun e =>
                              !(match e with | JVal.obj kvs => hasStack kvs | _ => false))
                              rest).length + 1 + n := by omega
                        rw [hn]
            · simp [validateLoop, entryError, List.findSome?_cons, h1, h2]
          · simp [validateLoop, entryError, List.findSome?_cons, h1]
      | str s => simp [validateLoop, entryError, List.findSome?_cons]
      | bool b => simp [validateLoop, entryError, List.findSome?_cons]
      | num i => simp [validateLoop, entryError, List.findSome?_cons]
      | arr xs => simp [validateLoop, entryError, List.findSome?_cons]

/-- **C5** amended: checks run entry by entry in collection order, each
entry in the source's check order, and the first failing entry
determines the error; the rule-1-before-2-before-3 precedence holds
only within a single entry, and TooManyDefaults is decided last, after
every entry has passed its own checks. -/
theorem validate_eq_validateSpec (data : JVal) : validate data = validateSpec data := by
  cases data with
  | arr es =>
      show validateLoop es 0 = validateSpec (JVal.arr es)
      rw [validateLoop_eq_spec]
      unfold validateSpec
      cases hfs : es.findSome? entryError with
      | some m => simp [hfs]
      | none => simp [hfs]
  | str s => rfl
  | bool b => rfl
  | num i => rfl
  | obj kvs => rfl

/-! ## C1: lemmas towards the CSV round trip -/

theorem containsB_iff {α : Type} [BEq α] [LawfulBEq α] {l : List α} {x : α} :
    l.contains x = true ↔ x ∈ l := by
  simp [List.contains]

theorem noSlash_not_mem {s : PyStr} (h : noSlash s = true) : '/' ∉ s := by
  simp only [noSlash, Bool.not_eq_true'] at h
  intro hm
  rw [containsB_iff.mpr hm] at h
  cases h

theorem noSlash_tail {c : Char} {rest : PyStr} (h : noSlash (c :: rest) = true) :
    c ≠ '/' ∧ noSlash rest = true := by
  constructor
  · intro hc
    exact noSlash_not_mem h (hc ▸ List.mem_cons_self c rest)
  · simp only [noSlash, Bool.not_eq_true'] at h ⊢
    cases hcr : rest.contains '/' with
    | false => rfl
    | true =>
        rw [containsB_iff] at hcr
        rw [containsB_iff.mpr (List.mem_cons_of_mem c hcr)] at h
        cases h

theorem slash_mem_comp (g f : PyStr) : '/' ∈ g ++ '/' :: f := by
  simp

theorem splitSlash_ne_nil (s : PyStr) : splitSlash s ≠ [] := by
  cases s with
  | nil => simp [splitSlash]
  | cons c rest =>
      unfold splitSlash
      cases splitSlash rest with
      | nil => simp
      | cons a l => by_cases h : c = '/' <;> simp [h]

theorem splitSlash_noSlash {s : PyStr} (h : noSlash s = true) : splitSlash s = [s] := by
  induction s with
  | nil => rfl
  | cons c rest ih =>
      obtain ⟨hc, hr⟩ := noSlash_tail h
      show (match splitSlash rest with
        | [] => [[]]
        | s :: ss => if c = '/' then [] :: s :: ss else (c :: s) :: ss) = [c :: rest]
      rw [ih hr]
      simp [hc]

theorem splitSlash_comp {g : PyStr} (f : PyStr) (hg : noSlash g = true) :
    splitSlash (g ++ '/' :: f) = g :: splitSlash f := by
  induction g with
  | nil =>
      show (match splitSlash f with
        | [] => [[]]
        | s :: ss => if '/' = '/' then [] :: s :: ss else ('/' :: s) :: ss) =
        [] :: splitSlash f
      cases hf : splitSlash f with
      | nil => exact absurd hf (splitSlash_ne_nil f)
      | cons a l => simp
  | cons c rest ih =>
      obtain ⟨hc, hr⟩ := noSlash_tail hg
      show (match splitSlash (rest ++ '/' :: f) with
        | [] => [[]]
        | s :: ss => if c = '/' then [] :: s :: ss else (c :: s) :: ss) =
        (c :: rest) :: splitSlash f
      rw [ih hr]
      simp [hc]

theorem splitSlash_comp_two {g f : PyStr} (hg : noSlash g = true)
    (hf : noSlash f = true) : splitSlash (g ++ '/' :: f) = [g, f] := by
  rw [splitSlash_comp f hg, splitSlash_noSlash hf]

/-- Composite keys with slash-free parts decompose uniquely. -/
theorem comp_key_inj {g1 f1 g2 f2 : PyStr} (hg1 : noSlash g1 = true)
    (hf1 : noSlash f1 = true) (hg2 : noSlash g2 = true) (hf2 : noSlash f2 = true)
    (h : g1 ++ '/' :: f1 = g2 ++ '/' :: f2) : g1 = g2 ∧ f1 = f2 := by
  have h2 : splitSlash (g1 ++ '/' :: f1) = splitSlash (g2 ++ '/' :: f2) := by rw [h]
  rw [splitSlash_comp_two hg1 hf1, splitSlash_comp_two hg2 hf2] at h2
  have e1 : g1 = g2 := by
    have := congrArg (fun l : List PyStr => l.headI) h2
    simpa using this
  have e2 : f1 = f2 := by
    have := congrArg (fun l : List PyStr => l.tail.headI) h2
    simpa using this
  exact ⟨e1, e2⟩

theorem lookupK_append {α : Type} {l1 : List (PyStr × α)} (l2 : List (PyStr × α))
    {k : PyStr} (h : k ∉ l1.map Prod.fst) :
    lookupK k (l1 ++ l2) = lookupK k l2 := by
  induction l1 with
  | nil => rfl
  | cons kv rest ih =>
      have hk : kv.1 ≠ k := fun he => h (List.mem_cons.mpr (Or.inl he.symm))
      have hr : k ∉ rest.map Prod.fst := fun hm => h (List.mem_cons_of_mem _ hm)
      show lookupK k (kv :: (rest ++ l2)) = lookupK k l2
      simp only [lookupK, if_neg hk]
      exact ih hr

theorem odSet_last {α : Type} (acc : List (PyStr × α)) (g : PyStr) (x y : α)
    (h : g ∉ acc.map Prod.fst) :
    odSet (acc ++ [(g, x)]) g y = acc ++ [(g, y)] := by
  have hone : lookupK g [(g, x)] = some x := by
    simp [lookupK]
  have hsome : (lookupK g (acc ++ [(g, x)])).isSome := by
    rw [lookupK_append _ h, hone]
    rfl
  unfold odSet
  rw [if_pos hsome, List.map_append]
  congr 1
  · conv_rhs => rw [← List.map_id acc]
    apply List.map_congr_left
    intro p hp
    have hne : p.1 ≠ g := by
      intro he
      exact h (he ▸ List.mem_map_of_mem Prod.fst hp)
    rw [if_neg hne]
    rfl
  · show [if g = g then (g, y) else (g, x)] = [(g, y)]
    rw [if_pos rfl]

theorem foldl_odSet_of_nodup {α : Type} (pairs : List (PyStr × α)) :
    ∀ acc : List (PyStr × α), (pairs.map Prod.fst).Nodup →
    (∀ k ∈ pairs.map Prod.fst, k ∉ acc.map Prod.fst) →
    pairs.foldl (fun d kv => odSet d kv.1 kv.2) acc = acc ++ pairs := by
  induction pairs with
  | nil => intro acc _ _; simp
  | cons kv rest ih =>
      intro acc hnd hdisj
      have hk : kv.1 ∉ acc.map Prod.fst :=
        hdisj kv.1 (List.mem_cons.mpr (Or.inl rfl))
      rw [List.foldl_cons, odSet_of_not_mem _ hk]
      have hnd2 : (rest.map Prod.fst).Nodup := (List.nodup_cons.mp hnd).2
      have hhead : kv.1 ∉ rest.map Prod.fst := (List.nodup_cons.mp hnd).1
      have hd2 : ∀ k ∈ rest.map Prod.fst, k ∉ (acc ++ [(kv.1, kv.2)]).map Prod.fst := by
        intro k hkr
        rw [List.map_append, List.mem_append]
        rintro (hm | hm)
        · exact hdisj k (List.mem_cons_of_mem _ hkr) hm
        · have : k = kv.1 := by
            simpa using hm
          exact hhead (this ▸ hkr)
      rw [ih (acc ++ [(kv.1, kv.2)]) hnd2 hd2]
      simp

theorem nodupKeysB_iff {l : List PyStr} : nodupKeysB l = true ↔ l.Nodup := by
  induction l with
  | nil => simp [nodupKeysB]
  | cons k ks ih =>
      simp only [nodupKeysB, Bool.and_eq_true, Bool.not_eq_true', List.nodup_cons, ih]
      constructor
      · rintro ⟨h1, h2⟩
        refine ⟨fun hm => ?_, h2⟩
        rw [containsB_iff.mpr hm] at h1
        cases h1
      · rintro ⟨h1, h2⟩
        refine ⟨?_, h2⟩
        cases hc : ks.contains k with
        | false => rfl
        | true => exact absurd (containsB_iff.mp hc) h1

theorem goodEntry_nodup {e : Entry} (h : goodEntry e = true) :
    (e.map Prod.fst).Nodup := by
  simp only [goodEntry, Bool.and_eq_true] at h
  exact nodupKeysB_iff.mp h.1

theorem goodEntry_mem {e : Entry} (h : goodEntry e = true) {kv : PyStr × JVal}
    (hm : kv ∈ e) : noSlash kv.1 = true ∧ goodVal kv.2 = true := by
  simp only [goodEntry, Bool.and_eq_true, List.all_eq_true] at h
  exact h.2 kv hm

theorem goodEntry_tail {kv : PyStr × JVal} {e : Entry}
    (h : goodEntry (kv :: e) = true) : goodEntry e = true := by
  simp only [goodEntry, Bool.and_eq_true, List.all_eq_true] at h ⊢
  obtain ⟨h1, h2⟩ := h
  have hnd := nodupKeysB_iff.mp h1
  rw [List.map_cons, List.nodup_cons] at hnd
  exact ⟨nodupKeysB_iff.mpr hnd.2, fun x hx => h2 x (List.mem_cons_of_mem _ hx)⟩

theorem goodVal_obj {m : List (PyStr × JVal)} (h : goodVal (JVal.obj m) = true) :
    m ≠ [] ∧ (m.map Prod.fst).Nodup ∧
      ∀ kk ∈ m, noSlash kk.1 = true ∧ ∃ s, kk.2 = JVal.str s ∧ s ≠ [] := by
  simp only [goodVal, Bool.and_eq_true, List.all_eq_true] at h
  obtain ⟨⟨hne, hnd⟩, hall⟩ := h
  refine ⟨?_, nodupKeysB_iff.mp hnd, fun kk hk => ?_⟩
  · intro hm
    subst hm
    simp at hne
  · have hkk := hall kk hk
    refine ⟨hkk.1, ?_⟩
    rcases kk with ⟨k2, v2⟩
    cases v2 with
    | str s =>
        refine ⟨s, rfl, fun hs => ?_⟩
        subst hs
        simp [isNonBlankStr] at hkk
    | bool b => simp [isNonBlankStr] at hkk
    | num i => simp [isNonBlankStr] at hkk
    | arr xs => simp [isNonBlankStr] at hkk
    | obj m2 => simp [isNonBlankStr] at hkk

theorem goodVal_str {s : PyStr} (h : goodVal (JVal.str s) = true) :
    s ≠ [] ∧ s ≠ trueS := by
  simp only [goodVal, Bool.and_eq_true] at h
  constructor
  · intro hs
    subst hs
    simp at h
  · intro he
    rw [he] at h
    simp at h

theorem chunkKeys_cases {kv : PyStr × JVal} {x : PyStr} (hx : x ∈ chunkKeys kv)
    (hs : noSlash kv.1 = true) (hv : goodVal kv.2 = true) :
    (x = kv.1 ∧ noSlash x = true) ∨
    (∃ f, noSlash f = true ∧ x = kv.1 ++ '/' :: f) := by
  rcases kv with ⟨k, v⟩
  cases v with
  | obj m =>
      simp only [chunkKeys, List.mem_map] at hx
      obtain ⟨kk, hkm, rfl⟩ := hx
      have hn := (goodVal_obj hv).2.2 kk hkm
      exact Or.inr ⟨kk.1, hn.1, rfl⟩
  | str s =>
      have hxk : x = k := by simpa [chunkKeys] using hx
      exact Or.inl ⟨hxk, hxk.symm ▸ hs⟩
  | bool b =>
      have hxk : x = k := by simpa [chunkKeys] using hx
      exact Or.inl ⟨hxk, hxk.symm ▸ hs⟩
  | num i =>
      have hxk : x = k := by simpa [chunkKeys] using hx
      exact Or.inl ⟨hxk, hxk.symm ▸ hs⟩
  | arr xs =>
      have hxk : x = k := by simpa [chunkKeys] using hx
      exact Or.inl ⟨hxk, hxk.symm ▸ hs⟩

theorem chunkKeys_disjoint {kv kv2 : PyStr × JVal} {x : PyStr}
    (h1s : noSlash kv.1 = true) (h2s : noSlash kv2.1 = true)
    (h1v : goodVal kv.2 = true) (h2v : goodVal kv2.2 = true)
    (hne : kv.1 ≠ kv2.1)
    (hx1 : x ∈ chunkKeys kv) (hx2 : x ∈ chunkKeys kv2) : False := by
  rcases chunkKeys_cases hx1 h1s h1v with ⟨rfl, hxs⟩ | ⟨f1, hf1, rfl⟩
  · rcases chunkKeys_cases hx2 h2s h2v with ⟨he, _⟩ | ⟨f2, hf2, he⟩
    · exact hne he
    · exact noSlash_not_mem hxs (he ▸ slash_mem_comp kv2.1 f2)
  · rcases chunkKeys_cases hx2 h2s h2v with ⟨he, hxs⟩ | ⟨f2, hf2, he⟩
    · exact noSlash_not_mem hxs (he ▸ slash_mem_comp kv.1 f1)
    · exact hne (comp_key_inj h1s hf1 h2s hf2 he).1

theorem chunkKeys_nodup {kv : PyStr × JVal} (hv : goodVal kv.2 = true) :
    (chunkKeys kv).Nodup := by
  rcases kv with ⟨k, v⟩
  cases v with
  | obj m =>
      obtain ⟨-, hnd, -⟩ := goodVal_obj hv
      show ((m.map fun kk => k ++ '/' :: kk.1)).Nodup
      have hcomp : (m.map fun kk => k ++ '/' :: kk.1) =
          (m.map Prod.fst).map (fun f => k ++ '/' :: f) := by
        rw [List.map_map]
        rfl
      rw [hcomp]
      refine List.Nodup.map ?_ hnd
      intro a b hab
      have h2 := List.append_cancel_left hab
      injection h2
  | str s => simp [chunkKeys]
  | bool b => simp [chunkKeys]
  | num i => simp [chunkKeys]
  | arr xs => simp [chunkKeys]

theorem flatPairs_keys (e : Entry) :
    (flatPairs e).map Prod.fst = e.flatMap chunkKeys := by
  induction e with
  | nil => rfl
  | cons kv rest ih =>
      unfold flatPairs
      rw [List.flatMap_cons, List.map_append, List.flatMap_cons]
      have ih2 : (rest.flatMap fun kv => match kv.2 with
          | JVal.obj kvs => kvs.map fun kk => (kv.1 ++ '/' :: kk.1, kk.2)
          | _ => [(kv.1, kv.2)]).map Prod.fst = rest.flatMap chunkKeys := by
        simpa [flatPairs] using ih
      rw [ih2]
      rcases kv with ⟨k, v⟩
      cases v with
      | obj m =>
          show (m.map fun kk => (k ++ '/' :: kk.1, kk.2)).map Prod.fst ++ _ =
            (m.map fun kk => k ++ '/' :: kk.1) ++ _
          rw [List.map_map]
          rfl
      | str s => rfl
      | bool b => rfl
      | num i => rfl
      | arr xs => rfl

theorem flatKeys_nodup (e : Entry) :
    goodEntry e = true → ((flatPairs e).map Prod.fst).Nodup := by
  rw [flatPairs_keys]
  induction e with
  | nil => intro _; simp
  | cons kv rest ih =>
      intro hg
      rw [List.flatMap_cons, List.nodup_append]
      have hmem := goodEntry_mem hg (List.mem_cons_self kv rest)
      refine ⟨chunkKeys_nodup hmem.2, ih (goodEntry_tail hg), ?_⟩
      intro x hx1 hx2
      rw [List.mem_flatMap] at hx2
      obtain ⟨kv2, hkv2, hx2⟩ := hx2
      have hmem2 := goodEntry_mem hg (List.mem_cons_of_mem _ hkv2)
      have hne : kv.1 ≠ kv2.1 := by
        have hnd := goodEntry_nodup hg
        rw [List.map_cons, List.nodup_cons] at hnd
        intro he
        exact hnd.1 (he ▸ List.mem_map_of_mem Prod.fst hkv2)
      exact chunkKeys_disjoint hmem.1 hmem2.1 hmem.2 hmem2.2 hne hx1 hx2

theorem flattenEntry_eq_flatPairs {e : Entry} (hg : goodEntry e = true) :
    flattenEntry e = flatPairs e := by
  unfold flattenEntry
  have hd : ∀ k ∈ (flatPairs e).map Prod.fst, k ∉ ([] : Entry).map Prod.fst := by
    intro k _ hk
    simp at hk
  rw [foldl_odSet_of_nodup _ [] (flatKeys_nodup e hg) hd]
  simp

theorem mem_dedupFirstAux {l : List PyStr} :
    ∀ {seen : List PyStr} {x : PyStr},
      x ∈ dedupFirstAux seen l ↔ (x ∈ l ∧ x ∉ seen) := by
  induction l with
  | nil => intro seen x; simp [dedupFirstAux]
  | cons k ks ih =>
      intro seen x
      by_cases hk : seen.contains k
      · simp only [dedupFirstAux, if_pos hk]
        rw [ih]
        have hkm : k ∈ seen := containsB_iff.mp hk
        constructor
        · rintro ⟨h1, h2⟩
          exact ⟨List.mem_cons_of_mem _ h1, h2⟩
        · rintro ⟨h1, h2⟩
          rcases List.mem_cons.mp h1 with rfl | h1
          · exact absurd hkm h2
          · exact ⟨h1, h2⟩
      · simp only [dedupFirstAux, if_neg hk]
        have hkm : k ∉ seen := fun hm => hk (containsB_iff.mpr hm)
        constructor
        · intro hm
          rcases List.mem_cons.mp hm with rfl | hm
          · exact ⟨List.mem_cons_self _ _, hkm⟩
          · obtain ⟨h1, h2⟩ := ih.mp hm
            exact ⟨List.mem_cons_of_mem _ h1,
              fun hs => h2 (List.mem_cons_of_mem _ hs)⟩
        · rintro ⟨h1, h2⟩
          by_cases hxk : x = k
          · exact List.mem_cons.mpr (Or.inl hxk)
          · rcases List.mem_cons.mp h1 with rfl | h1
            · exact absurd rfl hxk
            · refine List.mem_cons_of_mem _ (ih.mpr ⟨h1, fun hs => ?_⟩)
              rcases List.mem_cons.mp hs with rfl | hs
              · exact hxk rfl
              · exact h2 hs

theorem nodup_dedupFirstAux (l : List PyStr) :
    ∀ seen, (dedupFirstAux seen l).Nodup := by
  induction l with
  | nil => intro seen; simp [dedupFirstAux]
  | cons k ks ih =>
      intro seen
      by_cases hk : seen.contains k
      · simp only [dedupFirstAux, if_pos hk]
        exact ih seen
      · simp only [dedupFirstAux, if_neg hk]
        rw [List.nodup_cons]
        refine ⟨fun hm => ?_, ih (k :: seen)⟩
        exact (mem_dedupFirstAux.mp hm).2 (List.mem_cons_self k seen)

theorem columnsOf_nodup (c : List Entry) : (columnsOf c).Nodup :=
  nodup_dedupFirstAux _ []

theorem isSubseq_subset {L l : List PyStr} (h : isSubseq l L = true) :
    ∀ x ∈ l, x ∈ L := by
  induction L generalizing l with
  | nil =>
      cases l with
      | nil => intro x hx; cases hx
      | cons a as => simp [isSubseq] at h
  | cons b bs ih =>
      cases l with
      | nil => intro x hx; cases hx
      | cons a as =>
          simp only [isSubseq] at h
          by_cases hab : a = b
          · rw [if_pos hab] at h
            intro x hx
            rcases List.mem_cons.mp hx with rfl | hx
            · exact List.mem_cons.mpr (Or.inl hab)
            · exact List.mem_cons_of_mem _ (ih h x hx)
          · rw [if_neg hab] at h
            intro x hx
            exact List.mem_cons_of_mem _ (ih h x hx)

theorem buildPairs_cons (acc : Entry) (kv : PyStr × PyStr)
    (pairs : List (PyStr × PyStr)) :
    buildPairs acc (kv :: pairs) =
      cubicStep acc kv.1 kv.2 >>= fun acc2 => buildPairs acc2 pairs := by
  simp [buildPairs, List.foldlM_cons]

theorem buildPairs_append (acc : Entry) (l1 l2 : List (PyStr × PyStr)) :
    buildPairs acc (l1 ++ l2) =
      buildPairs acc l1 >>= fun a => buildPairs a l2 := by
  simp [buildPairs, List.foldlM_append]

theorem buildPairs_blank (cols : List PyStr) (acc : Entry) :
    buildPairs acc (cols.map fun k => (k, ([] : PyStr))) = .ok acc := by
  induction cols generalizing acc with
  | nil => rfl
  | cons k cols ih =>
      rw [List.map_cons, buildPairs_cons]
      show (cubicStep acc k [] >>= fun a => buildPairs a _) = _
      rw [cubicStep_blank]
      show buildPairs acc (cols.map fun k => (k, ([] : PyStr))) = _
      exact ih acc

theorem buildPairs_nested (g : PyStr) (hgn : noSlash g = true)
    (m : List (PyStr × JVal)) :
    ∀ (inner : List (PyStr × JVal)) (acc0 : Entry),
      g ∉ acc0.map Prod.fst →
      (∀ kk ∈ m, noSlash kk.1 = true ∧ ∃ s, kk.2 = JVal.str s ∧ s ≠ []) →
      (∀ kk ∈ m, kk.1 ∉ inner.map Prod.fst) →
      (m.map Prod.fst).Nodup →
      buildPairs (acc0 ++ [(g, JVal.obj inner)])
          (m.map fun kk => (g ++ '/' :: kk.1, pyStr kk.2)) =
        .ok (acc0 ++ [(g, JVal.obj (inner ++ m))]) := by
  induction m with
  | nil =>
      intro inner acc0 _ _ _ _
      simp only [List.map_nil, buildPairs, List.foldlM_nil, List.append_nil]
      rfl
  | cons kk m ih =>
      intro inner acc0 hg0 hvals hfresh hnd
      obtain ⟨hks, s, hs, hsne⟩ := hvals kk (List.mem_cons_self _ _)
      rw [List.map_cons, buildPairs_cons]
      have hkkfresh : kk.1 ∉ inner.map Prod.fst := hfresh kk (List.mem_cons_self _ _)
      have hstep : cubicStep (acc0 ++ [(g, JVal.obj inner)])
          (g ++ '/' :: kk.1) (pyStr kk.2) =
          .ok (acc0 ++ [(g, JVal.obj (inner ++ [kk]))]) := by
        rw [hs]
        show cubicStep (acc0 ++ [(g, JVal.obj inner)]) (g ++ '/' :: kk.1) s = _
        unfold cubicStep
        simp only [splitSlash_comp_two hgn hks]
        rw [if_pos hsne]
        unfold setNested
        have hone : lookupK g [(g, JVal.obj inner)] = some (JVal.obj inner) := by
          simp [lookupK]
        have hlook : lookupK g (acc0 ++ [(g, JVal.obj inner)]) =
            some (JVal.obj inner) := by
          rw [lookupK_append _ hg0, hone]
        simp only [hlook]
        rw [odSet_of_not_mem _ hkkfresh, odSet_last _ _ _ _ hg0]
        have hkv : (kk.1, JVal.str s) = kk := by
          rcases kk with ⟨k1, v1⟩
          simp only at hs
          rw [hs]
        rw [hkv]
      rw [hstep]
      show buildPairs (acc0 ++ [(g, JVal.obj (inner ++ [kk]))]) _ = _
      have hfresh2 : ∀ kk2 ∈ m, kk2.1 ∉ (inner ++ [kk]).map Prod.fst := by
        intro kk2 hm2
        rw [List.map_append, List.mem_append]
        rintro (h | h)
        · exact hfresh kk2 (List.mem_cons_of_mem _ hm2) h
        · have hk2 : kk2.1 = kk.1 := by simpa using h
          rw [List.map_cons, List.nodup_cons] at hnd
          exact hnd.1 (hk2 ▸ List.mem_map_of_mem Prod.fst hm2)
      have hvals2 : ∀ kk2 ∈ m, noSlash kk2.1 = true ∧
          ∃ s2, kk2.2 = JVal.str s2 ∧ s2 ≠ [] :=
        fun kk2 hm2 => hvals kk2 (List.mem_cons_of_mem _ hm2)
      have hnd2 : (m.map Prod.fst).Nodup := by
        rw [List.map_cons, List.nodup_cons] at hnd
        exact hnd.2
      rw [ih (inner ++ [kk]) acc0 hg0 hvals2 hfresh2 hnd2]
      rw [List.append_assoc]
      rfl

theorem buildPairs_entry (e : Entry) :
    ∀ acc : Entry, goodEntry e = true →
      (∀ kv ∈ e, kv.1 ∉ acc.map Prod.fst) →
      buildPairs acc ((flatPairs e).map fun kv => (kv.1, pyStr kv.2)) =
        .ok (acc ++ e) := by
  induction e with
  | nil =>
      intro acc _ _
      simp only [flatPairs, List.flatMap_nil, List.map_nil, buildPairs,
        List.foldlM_nil, List.append_nil]
      rfl
  | cons kv e ih =>
      intro acc hg hdisj
      have hmem := goodEntry_mem hg (List.mem_cons_self kv e)
      have hkfresh : kv.1 ∉ acc.map Prod.fst := hdisj kv (List.mem_cons_self _ _)
      have hdisj2 : ∀ kv2 ∈ e, kv2.1 ∉ (acc ++ [kv]).map Prod.fst := by
        intro kv2 hm2
        rw [List.map_append, List.mem_append]
        rintro (h | h)
        · exact hdisj kv2 (List.mem_cons_of_mem _ hm2) h
        · have hk2 : kv2.1 = kv.1 := by simpa using h
          have hnd := goodEntry_nodup hg
          rw [List.map_cons, List.nodup_cons] at hnd
          exact hnd.1 (hk2 ▸ List.mem_map_of_mem Prod.fst hm2)
      have htail := ih (acc ++ [kv]) (goodEntry_tail hg) hdisj2
      rcases kv with ⟨k, v⟩
      simp only at hmem hkfresh
      cases v with
      | bool b =>
          have hb : b = true := by simpa [goodVal] using hmem.2
          subst hb
          have hsplit : flatPairs ((k, JVal.bool true) :: e) =
              (k, JVal.bool true) :: flatPairs e := by
            simp [flatPairs, List.flatMap_cons]
          rw [hsplit, List.map_cons, buildPairs_cons]
          have hstep : cubicStep acc k trueS = .ok (acc ++ [(k, JVal.bool true)]) := by
            unfold cubicStep
            simp only [splitSlash_noSlash hmem.1]
            show Except.ok (topStep acc k trueS) = _
            unfold topStep
            rw [if_pos rfl, odSet_of_not_mem _ hkfresh]
          show (cubicStep acc k trueS >>= fun a =>
            buildPairs a ((flatPairs e).map fun p => (p.1, pyStr p.2))) = _
          rw [hstep]
          show buildPairs (acc ++ [(k, JVal.bool true)])
            ((flatPairs e).map fun p => (p.1, pyStr p.2)) = _
          rw [htail, List.append_assoc]
          rfl
      | str s =>
          obtain ⟨hsne, hstr⟩ := goodVal_str hmem.2
          have hsplit : flatPairs ((k, JVal.str s) :: e) =
              (k, JVal.str s) :: flatPairs e := by
            simp [flatPairs, List.flatMap_cons]
          rw [hsplit, List.map_cons, buildPairs_cons]
          have hstep : cubicStep acc k s = .ok (acc ++ [(k, JVal.str s)]) := by
            unfold cubicStep
            simp only [splitSlash_noSlash hmem.1]
            show Except.ok (topStep acc k s) = _
            unfold topStep
            rw [if_neg hstr, if_pos hsne, odSet_of_not_mem _ hkfresh]
          show (cubicStep acc k s >>= fun a =>
            buildPairs a ((flatPairs e).map fun p => (p.1, pyStr p.2))) = _
          rw [hstep]
          show buildPairs (acc ++ [(k, JVal.str s)])
            ((flatPairs e).map fun p => (p.1, pyStr p.2)) = _
          rw [htail, List.append_assoc]
          rfl
      | num i => simp [goodVal] at hmem
      | arr xs => simp [goodVal] at hmem
      | obj m =>
          obtain ⟨hmne, hmnd, hmall⟩ := goodVal_obj hmem.2
          cases m with
          | nil => exact absurd rfl hmne
          | cons kk0 m2 =>
              have hsplit : flatPairs ((k, JVal.obj (kk0 :: m2)) :: e) =
                  ((kk0 :: m2).map fun kk => (k ++ '/' :: kk.1, kk.2)) ++ flatPairs e := by
                simp [flatPairs, List.flatMap_cons]
              rw [hsplit, List.map_append, buildPairs_append, List.map_cons,
                List.map_cons, buildPairs_cons]
              obtain ⟨hk0s, s0, hs0, hs0ne⟩ := hmall kk0 (List.mem_cons_self _ _)
              have hstep : cubicStep acc (k ++ '/' :: kk0.1) (pyStr kk0.2) =
                  .ok (acc ++ [(k, JVal.obj [kk0])]) := by
                rw [hs0]
                show cubicStep acc (k ++ '/' :: kk0.1) s0 = _
                unfold cubicStep
                simp only [splitSlash_comp_two hmem.1 hk0s]
                rw [if_pos hs0ne]
                unfold setNested
                have hlook : lookupK k acc = none := lookupK_eq_none.mpr hkfresh
                simp only [hlook]
                rw [odSet_of_not_mem _ hkfresh]
                have hkv : (kk0.1, JVal.str s0) = kk0 := by
                  rcases kk0 with ⟨k1, v1⟩
                  simp only at hs0
                  rw [hs0]
                rw [hkv]
              rw [hstep, List.map_map]
              show (buildPairs (acc ++ [(k, JVal.obj [kk0])])
                  (m2.map fun kk => (k ++ '/' :: kk.1, pyStr kk.2)) >>=
                fun a => buildPairs a ((flatPairs e).map fun p => (p.1, pyStr p.2))) = _
              have hvals2 : ∀ kk2 ∈ m2, noSlash kk2.1 = true ∧
                  ∃ s2, kk2.2 = JVal.str s2 ∧ s2 ≠ [] :=
                fun kk2 hm2 => hmall kk2 (List.mem_cons_of_mem _ hm2)
              have hfresh2 : ∀ kk2 ∈ m2,
                  kk2.1 ∉ ([kk0] : List (PyStr × JVal)).map Prod.fst := by
                intro kk2 hm2
                rw [List.map_cons, List.nodup_cons] at hmnd
                intro h
                have hk2 : kk2.1 = kk0.1 := by simpa using h
                exact hmnd.1 (hk2 ▸ List.mem_map_of_mem Prod.fst hm2)
              have hnd2 : (m2.map Prod.fst).Nodup := by
                rw [List.map_cons, List.nodup_cons] at hmnd
                exact hmnd.2
              rw [buildPairs_nested k hmem.1 m2 [kk0] acc hkfresh hvals2 hfresh2 hnd2]
              show buildPairs (acc ++ [(k, JVal.obj (kk0 :: m2))])
                ((flatPairs e).map fun p => (p.1, pyStr p.2)) = _
              rw [htail, List.append_assoc]
              rfl

theorem buildPairs_pad (cols : List PyStr) :
    ∀ (flat : List (PyStr × JVal)) (acc : Entry), cols.Nodup →
      isSubseq (flat.map Prod.fst) cols = true →
      buildPairs acc (cols.map fun k => (k, renderCell (lookupK k flat))) =
        buildPairs acc (flat.map fun kv => (kv.1, pyStr kv.2)) := by
  induction cols with
  | nil =>
      intro flat acc _ hsub
      cases flat with
      | nil => rfl
      | cons kv rest => simp [isSubseq] at hsub
  | cons k cols ih =>
      intro flat acc hnd hsub
      cases flat with
      | nil =>
          have hmap : ((k :: cols).map fun k2 =>
              (k2, renderCell (lookupK k2 ([] : List (PyStr × JVal))))) =
              (k :: cols).map fun k2 => (k2, ([] : PyStr)) := by
            apply List.map_congr_left
            intro x _
            rfl
          rw [hmap, buildPairs_blank]
          rfl
      | cons kv rest =>
          by_cases hk : kv.1 = k
          · have hlook : lookupK k (kv :: rest) = some kv.2 := by
              simp [lookupK, hk]
            rw [List.map_cons, List.map_cons, buildPairs_cons, buildPairs_cons]
            rw [hlook]
            have hsub2 : isSubseq (rest.map Prod.fst) cols = true := by
              simpa [isSubseq, hk] using hsub
            have hnd2 : cols.Nodup := (List.nodup_cons.mp hnd).2
            cases hres : cubicStep acc k (renderCell (some kv.2)) with
            | error msg =>
                have hres2 : cubicStep acc kv.1 (pyStr kv.2) = .error msg := by
                  rw [hk]
                  exact hres
                rw [hres2]
                rfl
            | ok acc2 =>
                have hres2 : cubicStep acc kv.1 (pyStr kv.2) = .ok acc2 := by
                  rw [hk]
                  exact hres
                rw [hres2]
                show buildPairs acc2
                    (cols.map fun k2 => (k2, renderCell (lookupK k2 (kv :: rest)))) =
                  buildPairs acc2 (rest.map fun p => (p.1, pyStr p.2))
                have hmap : (cols.map fun k2 =>
                    (k2, renderCell (lookupK k2 (kv :: rest)))) =
                    cols.map fun k2 => (k2, renderCell (lookupK k2 rest)) := by
                  apply List.map_congr_left
                  intro x hx
                  have hxk : kv.1 ≠ x := by
                    rw [hk]
                    intro he
                    exact (List.nodup_cons.mp hnd).1 (he ▸ hx)
                  show (x, renderCell (lookupK x (kv :: rest))) = _
                  have : lookupK x (kv :: rest) = lookupK x rest := by
                    simp [lookupK, hxk]
                  rw [this]
                rw [hmap]
                exact ih rest acc2 hnd2 hsub2
          · have hsub2 : isSubseq ((kv :: rest).map Prod.fst) cols = true := by
              simpa [isSubseq, hk] using hsub
            have hnotin : k ∉ (kv :: rest).map Prod.fst := by
              intro hm
              exact (List.nodup_cons.mp hnd).1 (isSubseq_subset hsub2 k hm)
            have hlook : lookupK k (kv :: rest) = none := lookupK_eq_none.mpr hnotin
            rw [List.map_cons, buildPairs_cons, hlook]
            show (cubicStep acc k [] >>= fun a =>
              buildPairs a (cols.map fun k2 =>
                (k2, renderCell (lookupK k2 (kv :: rest))))) = _
            rw [cubicStep_blank]
            show buildPairs acc (cols.map fun k2 =>
              (k2, renderCell (lookupK k2 (kv :: rest)))) = _
            exact ih (kv :: rest) acc (List.nodup_cons.mp hnd).2 hsub2

theorem buildRow_roundtrip (cols : List PyStr) (e : Entry)
    (hnd : cols.Nodup) (hg : goodEntry e = true)
    (hsub : isSubseq (flatKeys e) cols = true) :
    buildRow cols (rowFor cols (flattenEntry e)) = .ok e := by
  have hlen : cols.length ≤ (rowFor cols (flattenEntry e)).length := by
    rw [rowFor, List.length_map]
  have hzipkeys : (cols.zip (rowFor cols (flattenEntry e))).map Prod.fst = cols :=
    List.map_fst_zip _ _ hlen
  unfold buildRow
  have hdct : dctOf cols (rowFor cols (flattenEntry e)) =
      cols.zip (rowFor cols (flattenEntry e)) := by
    unfold dctOf
    have hd : ∀ k2 ∈ (cols.zip (rowFor cols (flattenEntry e))).map Prod.fst,
        k2 ∉ (([] : List (PyStr × PyStr)).map Prod.fst) := by
      intro k2 _ hk2
      simp at hk2
    rw [foldl_odSet_of_nodup _ [] (by rw [hzipkeys]; exact hnd) hd]
    simp
  rw [hdct]
  have hzipself : ∀ (L : List PyStr) (f : PyStr → PyStr),
      L.zip (L.map f) = L.map fun a => (a, f a) := by
    intro L f
    induction L with
    | nil => rfl
    | cons a L ihL => simp only [List.map_cons, List.zip_cons_cons, ihL]
  have hzip : cols.zip (rowFor cols (flattenEntry e)) =
      cols.map fun k => (k, renderCell (lookupK k (flattenEntry e))) := by
    unfold rowFor
    exact hzipself cols _
  rw [hzip]
  rw [flattenEntry_eq_flatPairs hg]
  have hsub2 : isSubseq ((flatPairs e).map Prod.fst) cols = true := by
    rw [← flattenEntry_eq_flatPairs hg]
    exact hsub
  rw [buildPairs_pad cols (flatPairs e) [] hnd hsub2]
  have hd2 : ∀ kv ∈ e, kv.1 ∉ (([] : Entry).map Prod.fst) := by
    intro kv _ h
    simp at h
  rw [buildPairs_entry e [] hg hd2]
  rfl

theorem unflattenRows_map_rows (cols : List PyStr) (c : List Entry)
    (hnd : cols.Nodup)
    (hgood : ∀ e ∈ c, goodEntry e = true)
    (hord : ∀ e ∈ c, isSubseq (flatKeys e) cols = true) :
    unflattenRows cols (c.map fun e => rowFor cols (flattenEntry e)) = .ok c := by
  induction c with
  | nil => rfl
  | cons e c ih =>
      rw [List.map_cons]
      show List.mapM (buildRow cols)
        (rowFor cols (flattenEntry e) :: c.map fun e2 => rowFor cols (flattenEntry e2)) = _
      rw [List.mapM_cons]
      rw [buildRow_roundtrip cols e hnd (hgood e (List.mem_cons_self _ _))
        (hord e (List.mem_cons_self _ _))]
      have ihh := ih (fun e2 h => hgood e2 (List.mem_cons_of_mem _ h))
        (fun e2 h => hord e2 (List.mem_cons_of_mem _ h))
      show (Except.ok e >>= fun e0 =>
        (List.mapM (buildRow cols) (c.map fun e2 => rowFor cols (flattenEntry e2)) >>=
          fun rest => pure (e0 :: rest))) = _
      have ihh2 : List.mapM (buildRow cols)
          (c.map fun e2 => rowFor cols (flattenEntry e2)) = .ok c := ihh
      rw [ihh2]
      rfl

/-- **C1** counterexample: take the valid, single-level collection
`[{"a": false, "stack": {"s": "1"}}, {"stack": {"s": "2"}}]`.  The claim
says a boolean `false` is indistinguishable from an absent key after the
round trip; in fact `false` is exported as the cell `False` and
re-imported as the string `"False"`, while the absent `a` of the second
entry stays absent, so the round trip does not equal the claim's
predicted collection (first entry's `a` dropped like an absent key). -/
theorem csv_roundtrip_false_vs_absent :
    validate (toJson [[("a".toList, JVal.bool false),
        ("stack".toList, JVal.obj [("s".toList, JVal.str ['1'])])],
      [("stack".toList, JVal.obj [("s".toList, JVal.str ['2'])])]]) = .ok () ∧
    unflattenRows
        (exportCsv [[("a".toList, JVal.bool false),
            ("stack".toList, JVal.obj [("s".toList, JVal.str ['1'])])],
          [("stack".toList, JVal.obj [("s".toList, JVal.str ['2'])])]]).1
        (exportCsv [[("a".toList, JVal.bool false),
            ("stack".toList, JVal.obj [("s".toList, JVal.str ['1'])])],
          [("stack".toList, JVal.obj [("s".toList, JVal.str ['2'])])]]).2 =
      .ok [[("a".toList, JVal.str falseS),
            ("stack".toList, JVal.obj [("s".toList, JVal.str ['1'])])],
          [("stack".toList, JVal.obj [("s".toList, JVal.str ['2'])])]] ∧
    unflattenRows
        (exportCsv [[("a".toList, JVal.bool false),
            ("stack".toList, JVal.obj [("s".toList, JVal.str ['1'])])],
          [("stack".toList, JVal.obj [("s".toList, JVal.str ['2'])])]]).1
        (exportCsv [[("a".toList, JVal.bool false),
            ("stack".toList, JVal.obj [("s".toList, JVal.str ['1'])])],
          [("stack".toList, JVal.obj [("s".toList, JVal.str ['2'])])]]).2 ≠
      .ok [[("stack".toList, JVal.obj [("s".toList, JVal.str ['1'])])],
          [("stack".toList, JVal.obj [("s".toList, JVal.str ['2'])])]] := by
  refine ⟨rfl, rfl, ?_⟩
  intro h
  have e1 : unflattenRows
      (exportCsv [[("a".toList, JVal.bool false),
          ("stack".toList, JVal.obj [("s".toList, JVal.str ['1'])])],
        [("stack".toList, JVal.obj [("s".toList, JVal.str ['2'])])]]).1
      (exportCsv [[("a".toList, JVal.bool false),
          ("stack".toList, JVal.obj [("s".toList, JVal.str ['1'])])],
        [("stack".toList, JVal.obj [("s".toList, JVal.str ['2'])])]]).2 =
    .ok [[("a".toList, JVal.str falseS),
          ("stack".toList, JVal.obj [("s".toList, JVal.str ['1'])])],
        [("stack".toList, JVal.obj [("s".toList, JVal.str ['2'])])]] := rfl
  rw [e1] at h
  have h2 := congrArg (fun r : Except String (List Entry) =>
    match r with
    | .ok (e0 :: _) => e0.map Prod.fst
    | _ => ([] : List PyStr)) h
  exact absurd
    (show (["a".toList, "stack".toList] : List PyStr) = ["stack".toList] from h2)
    (by decide)

/-- **C1** amended: the round trip is the identity — not merely equal up
to the claimed lossy cases — on every collection that passes `validate`,
has only single-level nesting, slash-free keys, top-level values that
are boolean `true` or non-blank strings other than `"True"`, non-blank
string nested values, and whose entries list their flat keys in an
order consistent with the global column order.  (Outside these bounds
the transform is lossy in more ways than the claim states: boolean
`false` returns as the string `"False"`, blank strings are dropped, a
`"True"` string becomes boolean true, and keys containing `/` are
regrouped.) -/
theorem csv_roundtrip_identity (c : List Entry)
    (hval : validate (toJson c) = .ok ())
    (hgood : ∀ e ∈ c, goodEntry e = true)
    (hord : ∀ e ∈ c, isSubseq (flatKeys e) (columnsOf c) = true) :
    unflattenRows (exportCsv c).1 (exportCsv c).2 = .ok c := by
  show unflattenRows (columnsOf c)
    (c.map fun e => rowFor (columnsOf c) (flattenEntry e)) = .ok c
  exact unflattenRows_map_rows (columnsOf c) c (columnsOf_nodup c) hgood hord

theorem csv_roundtrip_identity_witness :
    validate (toJson [[("a".toList, JVal.bool true),
        ("stack".toList, JVal.obj [("s".toList, JVal.str ['1'])])],
      [("stack".toList, JVal.obj [("s".toList, JVal.str ['2'])])]]) = .ok () ∧
    (∀ e ∈ [[("a".toList, JVal.bool true),
        ("stack".toList, JVal.obj [("s".toList, JVal.str ['1'])])],
      [("stack".toList, JVal.obj [("s".toList, JVal.str ['2'])])]],
      goodEntry e = true) ∧
    (∀ e ∈ [[("a".toList, JVal.bool true),
        ("stack".toList, JVal.obj [("s".toList, JVal.str ['1'])])],
      [("stack".toList, JVal.obj [("s".toList, JVal.str ['2'])])]],
      isSubseq (flatKeys e) (columnsOf [[("a".toList, JVal.bool true),
        ("stack".toList, JVal.obj [("s".toList, JVal.str ['1'])])],
      [("stack".toList, JVal.obj [("s".toList, JVal.str ['2'])])]]) = true) ∧
    unflattenRows
        (exportCsv [[("a".toList, JVal.bool true),
            ("stack".toList, JVal.obj [("s".toList, JVal.str ['1'])])],
          [("stack".toList, JVal.obj [("s".toList, JVal.str ['2'])])]]).1
        (exportCsv [[("a".toList, JVal.bool true),
            ("stack".toList, JVal.obj [("s".toList, JVal.str ['1'])])],
          [("stack".toList, JVal.obj [("s".toList, JVal.str ['2'])])]]).2 =
      .ok [[("a".toList, JVal.bool true),
            ("stack".toList, JVal.obj [("s".toList, JVal.str ['1'])])],
          [("stack".toList, JVal.obj [("s".toList, JVal.str ['2'])])]] :=
  ⟨rfl, by decide, by decide,
    csv_roundtrip_identity _ rfl (by decide) (by decide)⟩
